import Mathlib

/-!
# Verification of the `ipfs-to-cdn` batch-migration scripts

Shallow embedding of the four Python scripts
(`ipfs-to-cdn-apes-json.py`, `ipfs-to-cdn-hogs-json.py`,
`ipfs-to-cdn-hogs.py`, `csv-to-json-to-cdn-hog.py`).

Network effects are modelled by oracles: a download oracle mapping an item
id to the HTTP status of the gateway GET, an upload oracle mapping an item
id to the HTTP status of the CDN PUT, and a HEAD oracle mapping a
destination key to `Option Nat` (`none` models a raised exception,
`some code` a response with that status code).  Each id is fetched and
uploaded at most once per run, so per-run oracles indexed by id are a
faithful abstraction of the per-call network behaviour.
-/

/-- Python `range(a, b)` (step 1). -/
def pyRange (a b : Nat) : List Nat := List.range' a (b - a)

/-- Python `range(start, stop, step)` for a positive `step`. -/
def rangeStep (start stop step : Nat) : List Nat :=
  (List.range ((stop - start + step - 1) / step)).map (fun i => start + step * i)

/-- Destination filename `f"{n}.json"` / `f"{n}.png"` (no padding):
`ipfs-to-cdn-apes-json.py` line 113, `ipfs-to-cdn-hogs-json.py` line 184,
`ipfs-to-cdn-hogs.py` line 248. -/
def itemFilename (n : Nat) (ext : String) : String := Nat.repr n ++ "." ++ ext

/-- Destination key `f"{dest_path}{filename}"`:
`ipfs-to-cdn-apes-json.py` line 129, `ipfs-to-cdn-hogs-json.py` line 186,
`ipfs-to-cdn-hogs.py` line 250. -/
def destKey (destPath : String) (n : Nat) (ext : String) : String :=
  destPath ++ itemFilename n ext

/-- Aggregate state mutated by the scan-and-upload loop of the IPFS
variants, together with the observable call/file traces used to state
frame properties.  `stoppedAt = some n` records the
`"Stopping at n=..."` message emitted on the consecutive-miss break. -/
structure RunState where
  consecutiveMissing : Nat
  foundCount : Nat
  uploadedCount : Nat
  skippedCount : Nat
  errorsUpload : Nat
  stoppedAt : Option Nat
  entered : List Nat
  downloads : List Nat
  uploads : List Nat
  uploadedIds : List Nat
  skippedIds : List Nat
  localFiles : List Nat
deriving DecidableEq, Repr

/-- The all-zero state at the start of `main`'s loop. -/
def RunState.init : RunState :=
  { consecutiveMissing := 0, foundCount := 0, uploadedCount := 0,
    skippedCount := 0, errorsUpload := 0, stoppedAt := none,
    entered := [], downloads := [], uploads := [], uploadedIds := [],
    skippedIds := [], localFiles := [] }

/-- Configuration and network oracles of one run of an IPFS variant.
`download n` / `upload n` are the HTTP status codes returned by
`download_json`/`download_png` resp. `bunny_put` for item `n`;
`existing n` is `n in existing_files`. -/
structure LoopCfg where
  existing : Nat → Bool
  download : Nat → Nat
  upload : Nat → Nat
  maxMissing : Nat
  deleteLocal : Bool

/-- One iteration of the loop of `ipfs-to-cdn-apes-json.py` `main`
(lines 112-142).  The returned `Bool` is `false` exactly when the loop
`break`s on reaching the consecutive-miss threshold.  `download_json`
returns ok exactly on status 200 (line 53); `bunny_put` succeeds on
status 200 or 201 (line 71); on upload success with `--delete-local`
the local file is unlinked (line 136), on failure it is kept (line 142). -/
def apesStep (cfg : LoopCfg) (st : RunState) (n : Nat) : RunState × Bool :=
  let st1 := { st with entered := st.entered ++ [n], downloads := st.downloads ++ [n] }
  if cfg.download n ≠ 200 then
    let st2 := { st1 with consecutiveMissing := st1.consecutiveMissing + 1 }
    if cfg.maxMissing ≤ st2.consecutiveMissing then
      ({ st2 with stoppedAt := some n }, false)
    else
      (st2, true)
  else
    let st2 := { st1 with
      consecutiveMissing := 0, foundCount := st1.foundCount + 1,
      localFiles := st1.localFiles.insert n, uploads := st1.uploads ++ [n] }
    if cfg.upload n = 200 ∨ cfg.upload n = 201 then
      let st3 := { st2 with
        uploadedCount := st2.uploadedCount + 1,
        uploadedIds := st2.uploadedIds ++ [n] }
      (if cfg.deleteLocal then
        { st3 with localFiles := st3.localFiles.filter (fun m => m != n) }
       else st3, true)
    else
      ({ st2 with errorsUpload := st2.errorsUpload + 1 }, true)

/-- One iteration of the loop of `ipfs-to-cdn-hogs-json.py` `main`
(lines 183-220) and of `ipfs-to-cdn-hogs.py` `main` (lines 247-284):
identical to `apesStep` except for the leading `if n in existing_files`
skip branch, which only bumps `skipped_count` and `continue`s. -/
def hogsStep (cfg : LoopCfg) (st : RunState) (n : Nat) : RunState × Bool :=
  let st0 := { st with entered := st.entered ++ [n] }
  if cfg.existing n then
    ({ st0 with
      skippedCount := st0.skippedCount + 1,
      skippedIds := st0.skippedIds ++ [n] }, true)
  else
    let st1 := { st0 with downloads := st0.downloads ++ [n] }
    if cfg.download n ≠ 200 then
      let st2 := { st1 with consecutiveMissing := st1.consecutiveMissing + 1 }
      if cfg.maxMissing ≤ st2.consecutiveMissing then
        ({ st2 with stoppedAt := some n }, false)
      else
        (st2, true)
    else
      let st2 := { st1 with
        consecutiveMissing := 0, foundCount := st1.foundCount + 1,
        localFiles := st1.localFiles.insert n, uploads := st1.uploads ++ [n] }
      if cfg.upload n = 200 ∨ cfg.upload n = 201 then
        let st3 := { st2 with
          uploadedCount := st2.uploadedCount + 1,
          uploadedIds := st2.uploadedIds ++ [n] }
        (if cfg.deleteLocal then
          { st3 with localFiles := st3.localFiles.filter (fun m => m != n) }
         else st3, true)
      else
        ({ st2 with errorsUpload := st2.errorsUpload + 1 }, true)

/-- Drive a step function over the remaining candidate ids, honouring
the `break` signal (`for n in range(start, end+1)` with early `break`). -/
def runFrom (step : RunState → Nat → RunState × Bool) : List Nat → RunState → RunState
  | [], st => st
  | n :: rest, st =>
    let r := step st n
    if r.2 then runFrom step rest r.1 else r.1

/-- The whole loop of `ipfs-to-cdn-apes-json.py` `main` over
`range(start_number, end_number + 1)`. -/
def apesRun (cfg : LoopCfg) (startNumber endNumber : Nat) : RunState :=
  runFrom (apesStep cfg) (pyRange startNumber (endNumber + 1)) RunState.init

/-- The whole loop of `ipfs-to-cdn-hogs-json.py` / `ipfs-to-cdn-hogs.py`
`main` over `range(start_number, end_number + 1)`. -/
def hogsRun (cfg : LoopCfg) (startNumber endNumber : Nat) : RunState :=
  runFrom (hogsStep cfg) (pyRange startNumber (endNumber + 1)) RunState.init

/-- End-of-run cleanup condition `errors_upload == 0 and args.delete_local`
(`ipfs-to-cdn-apes-json.py` line 145, `ipfs-to-cdn-hogs-json.py` line 223,
`ipfs-to-cdn-hogs.py` line 287): `true` exactly when `shutil.rmtree`
removes the temp directory. -/
def tempDirRemoved (cfg : LoopCfg) (st : RunState) : Bool :=
  decide (st.errorsUpload = 0) && cfg.deleteLocal

/-- Local files remaining on disk after the end-of-run cleanup. -/
def finalLocalFiles (cfg : LoopCfg) (st : RunState) : List Nat :=
  if tempDirRemoved cfg st then [] else st.localFiles

/-- `check_file_exists_on_cdn` of `ipfs-to-cdn-hogs-json.py` (lines 66-78):
HEAD the storage URL for the key; report present exactly on status 200,
and report absent (`False`) when the request raises (`head k = none`). -/
def check_file_exists_on_cdn (head : String → Option Nat) (k : String) : Bool :=
  match head k with
  | some status => status == 200
  | none => false

/-- `get_existing_files_on_cdn` of `ipfs-to-cdn-hogs-json.py`
(lines 80-102): scan `range(start_num, end_num + 1)` in batches of 100
(`batch_end = min(batch_start + batch_size - 1, end_num)`) and collect
every id whose `f"{dest_prefix}{n}.json"` HEAD-checks present. -/
def get_existing_files_on_cdn (head : String → Option Nat) (destPath : String)
    (startNum endNum : Nat) : List Nat :=
  (rangeStep startNum (endNum + 1) 100).flatMap (fun batchStart =>
    let batchEnd := min (batchStart + 100 - 1) endNum
    (pyRange batchStart (batchEnd + 1)).filter (fun n =>
      check_file_exists_on_cdn head (destKey destPath n "json")))

/-- Modelled from the spec: the inverse direction of the destination-key
round trip ("round-trips to the same `n` when parsed back").  No parser
exists in the source; this one strips the configured path and the
`"." ++ ext` suffix and reads the remaining decimal digit characters. -/
def parseKeyId (destPath ext : String) (k : String) : Option Nat :=
  let cs := k.data
  let pre := destPath.data
  let suf := ("." ++ ext).data
  if cs.take pre.length = pre ∧ cs.drop (cs.length - suf.length) = suf then
    let mid := (cs.drop pre.length).take (cs.length - suf.length - pre.length)
    if mid ≠ [] ∧ mid.all Char.isDigit then
      some (mid.foldl (fun a c => 10 * a + (c.toNat - 48)) 0)
    else none
  else none

/-- An outgoing HEAD request: URL, headers, timeout in seconds. -/
structure HeadRequest where
  url : String
  headers : List (String × String)
  timeoutSecs : Nat
deriving DecidableEq, Repr

/-- The request built by `check_file_exists_on_cdn` of
`ipfs-to-cdn-hogs.py` (lines 73-83): it HEADs the hard-coded public URL
`"https://baysed.b-cdn.net/" + dest_key` with no headers and timeout 10,
ignoring the `storage_zone`, `access_key` and `region_host` parameters
it receives. -/
def check_file_exists_request_png (storageZone accessKey : String)
    (regionHost : Option String) (k : String) : HeadRequest :=
  { url := "https://baysed.b-cdn.net/" ++ k, headers := [], timeoutSecs := 10 }

/-- `check_file_exists_on_cdn` of `ipfs-to-cdn-hogs.py` (lines 73-83):
issue the public-URL HEAD request; present exactly on status 200,
absent on exception. -/
def check_file_exists_on_cdn_png (head : HeadRequest → Option Nat)
    (storageZone accessKey : String) (regionHost : Option String) (k : String) : Bool :=
  match head (check_file_exists_request_png storageZone accessKey regionHost k) with
  | some status => status == 200
  | none => false

/-- Outcome of one gateway GET inside `download_png`
(`ipfs-to-cdn-hogs.py` lines 125-166): a 200, a 404, another HTTP
status, or one of the caught exception classes. -/
inductive GatewayResp where
  | ok
  | notFound
  | httpStatus (code : Nat)
  | timeout
  | connError
  | reqError
  | otherError
deriving DecidableEq, Repr

/-- The terminal result, if any, of one gateway response inside
`download_png`: 200 returns `(True, 200)`, 404 returns `(False, 404)`,
everything else falls through to the next gateway. -/
def isTerminalResp : GatewayResp → Option (Bool × Nat)
  | .ok => some (true, 200)
  | .notFound => some (false, 404)
  | _ => none

/-- The inner `for gateway_idx, gateway in enumerate(gateways)` loop of
`download_png` for one attempt: returns the terminal result (if any)
and the list of gateway indices actually probed, in order. -/
def tryGateways (respA : Nat → GatewayResp) : List Nat → Option (Bool × Nat) × List Nat
  | [] => (none, [])
  | g :: gs =>
    match isTerminalResp (respA g) with
    | some r => (some r, [g])
    | none =>
      let p := tryGateways respA gs
      (p.1, g :: p.2)

/-- The outer `for attempt in range(max_retries)` loop of `download_png`,
over the remaining attempt numbers.  Returns the result, the trace of
`(attempt, gateway)` probes issued, and the list of back-off sleeps
(`retry_delay * (2 ** attempt)`, slept only when `attempt < max_retries - 1`,
lines 160-163).  When the attempts are exhausted the item is reported
missing with status 504 (line 166). -/
def downloadPngGo (resp : Nat → Nat → GatewayResp) (gIdx : List Nat)
    (maxRetries retryDelay : Nat) : List Nat → (Bool × Nat) × List (Nat × Nat) × List Nat
  | [] => ((false, 504), [], [])
  | a :: rest =>
    let p := tryGateways (resp a) gIdx
    match p.1 with
    | some r => (r, p.2.map (fun g => (a, g)), [])
    | none =>
      let sleeps := if a < maxRetries - 1 then [retryDelay * 2 ^ a] else []
      let q := downloadPngGo resp gIdx maxRetries retryDelay rest
      (q.1, p.2.map (fun g => (a, g)) ++ q.2.1, sleeps ++ q.2.2)

/-- `download_png` of `ipfs-to-cdn-hogs.py` (lines 125-166), with the
network abstracted by an oracle `resp attempt gatewayIdx`. -/
def download_png (resp : Nat → Nat → GatewayResp) (gateways : List String)
    (maxRetries retryDelay : Nat) : (Bool × Nat) × List (Nat × Nat) × List Nat :=
  downloadPngGo resp (List.range gateways.length) maxRetries retryDelay
    (List.range maxRetries)

/-- Python `str.split(sep)` for the single-character separator used by
the CSV script (`"#"`), on the character list of the string. -/
def splitOnChar (c : Char) : List Char → List (List Char)
  | [] => [[]]
  | x :: xs =>
    if x == c then [] :: splitOnChar c xs
    else
      match splitOnChar c xs with
      | [] => [[x]]
      | g :: gs => (x :: g) :: gs

/-- Python `str.strip()` on a character list. -/
def pyStrip (l : List Char) : List Char :=
  ((l.dropWhile Char.isWhitespace).reverse.dropWhile Char.isWhitespace).reverse

/-- Decimal value of a list of digit characters. -/
def digitsVal (l : List Char) : Nat :=
  l.foldl (fun a c => 10 * a + (c.toNat - 48)) 0

/-- Python `int(s)` on an already-stripped ASCII string: an optional
sign followed by at least one decimal digit; everything else raises
`ValueError` (modelled as `none`). -/
def pyInt? (l : List Char) : Option Int :=
  match l with
  | '-' :: rest =>
    if rest ≠ [] ∧ rest.all Char.isDigit then some (-(digitsVal rest : Int)) else none
  | '+' :: rest =>
    if rest ≠ [] ∧ rest.all Char.isDigit then some ((digitsVal rest : Int)) else none
  | _ =>
    if l ≠ [] ∧ l.all Char.isDigit then some ((digitsVal l : Int)) else none

/-- The `edition` value computed by `create_metadata_json`
(`csv-to-json-to-cdn-hog.py` lines 75-107): an `int` when `int()`
accepts the text after the last `#`, otherwise that text itself, or the
literal `"unknown"` when the name has no `#`. -/
inductive Edition where
  | int : Int → Edition
  | str : String → Edition
deriving DecidableEq, Repr

/-- Python `"#" in name`. -/
def nameHasHash (name : String) : Bool := name.data.contains '#'

/-- `name.split("#")[-1].strip()` (`csv-to-json-to-cdn-hog.py` line 82). -/
def editionStrOfName (name : String) : String :=
  ⟨pyStrip ((splitOnChar '#' name.data).getLastD [])⟩

/-- The `edition` field of `create_metadata_json` (lines 79-88). -/
def create_metadata_edition (name : String) : Edition :=
  if nameHasHash name then
    match pyInt? (editionStrOfName name).data with
    | some i => .int i
    | none => .str (editionStrOfName name)
  else
    .str "unknown"

/-- The `edition_str` filename id derived in `process_nft_row`
(lines 143-154), including the fallback re-extraction for an empty or
`"unknown"` string edition. -/
def edition_filename_str (name : String) : String :=
  match create_metadata_edition name with
  | .int i => toString i
  | .str s =>
    if s.data.isEmpty ∨ s = "unknown" then
      (if nameHasHash name then editionStrOfName name else "unknown")
    else s

/-- `process_nft_row` (lines 135-166), with the PUT abstracted by an
oracle returning the HTTP status for a key.  `bunny_put_json` raises on
a non-200/201 status (lines 127-130); the exception is caught and the
row is reported failed.  The second component is the list of keys PUT
(the row is uploaded in every case, never dropped). -/
def process_nft_row (put : String → Nat) (destPath name : String) :
    (Bool × String) × List String :=
  let editionStr := edition_filename_str name
  let k := destPath ++ editionStr ++ ".json"
  if put k = 200 ∨ put k = 201 then ((true, editionStr), [k])
  else ((false, name), [k])

/-- The result-collection loop of `csv-to-json-to-cdn-hog.py` `main`
(lines 284-298): count successes and errors over all completed futures;
no per-row failure aborts the collection. -/
def csvCollect (results : List (Bool × String)) : Nat × Nat :=
  results.foldl (fun acc r => if r.1 then (acc.1 + 1, acc.2) else (acc.1, acc.2 + 1)) (0, 0)

/-! ## Concrete scenarios used by the claim witnesses -/

/-- C1 scenario: ids below 501 hit, 501 and above miss, threshold 75. -/
def apesScanCfg : LoopCfg :=
  { existing := fun _ => false
    download := fun n => if n < 501 then 200 else 404
    upload := fun _ => 200
    maxMissing := 75
    deleteLocal := true }

/-- C4 scenario: downloads always succeed; the PUT for item 5 is forced
to 500, all other PUTs return 200. -/
def uploadFailCfg : LoopCfg :=
  { existing := fun _ => false
    download := fun _ => 200
    upload := fun n => if n = 5 then 500 else 200
    maxMissing := 75
    deleteLocal := true }

/-- C2 scenario, first run: the CDN is empty (every HEAD returns 404). -/
def twoRunHead1 : String → Option Nat := fun _ => some 404

/-- C2 scenario: the gateway has the even ids of `1..6`, the odd ids 404. -/
def twoRunDownload : Nat → Nat := fun n => if n % 2 = 0 then 200 else 404

/-- C2 scenario, first run over ids 1..6 with `max_missing = 2`. -/
def twoRunCfg1 : LoopCfg :=
  { existing := fun n =>
      decide (n ∈ get_existing_files_on_cdn twoRunHead1 "hog_jsons/" 1 6)
    download := twoRunDownload
    upload := fun _ => 200
    maxMissing := 2
    deleteLocal := true }

/-- C2 scenario: after the first run the CDN holds exactly the keys the
first run uploaded; HEAD answers 200 for those and 404 otherwise. -/
def twoRunHead2 : String → Option Nat := fun k =>
  if k ∈ (hogsRun twoRunCfg1 1 6).uploadedIds.map (fun n => destKey "hog_jsons/" n "json")
  then some 200 else some 404

/-- C2 scenario, second run: same batch, existence check enabled against
the post-first-run CDN state. -/
def twoRunCfg2 : LoopCfg :=
  { twoRunCfg1 with
    existing := fun n =>
      decide (n ∈ get_existing_files_on_cdn twoRunHead2 "hog_jsons/" 1 6) }

/-- C10 scenario: id 2 already on the CDN, ids 1 and 3 miss, threshold 2. -/
def skipStreakCfg : LoopCfg :=
  { existing := fun n => n == 2
    download := fun _ => 404
    upload := fun _ => 200
    maxMissing := 2
    deleteLocal := true }

/-- C5 scenario: the second gateway answers 404 on the first attempt,
every other probe times out. -/
def notFoundResp : Nat → Nat → GatewayResp := fun a g =>
  if a = 0 ∧ g = 1 then .notFound else .timeout

/-- C5 scenario: every probe times out. -/
def transientResp : Nat → Nat → GatewayResp := fun _ _ => .timeout

/-- The default gateway list of `ipfs-to-cdn-hogs.py` (lines 28-32). -/
def threeGateways : List String :=
  ["https://ipfs.io", "https://gateway.pinata.cloud", "https://dweb.link"]

/-! ## Helper lemmas: the apes loop -/

lemma apesStep_hit (cfg : LoopCfg) (st : RunState) (n : Nat)
    (h : cfg.download n = 200) :
    (apesStep cfg st n).2 = true
    ∧ (apesStep cfg st n).1.consecutiveMissing = 0
    ∧ (apesStep cfg st n).1.foundCount = st.foundCount + 1
    ∧ (apesStep cfg st n).1.entered = st.entered ++ [n]
    ∧ (apesStep cfg st n).1.stoppedAt = st.stoppedAt := by
  simp only [apesStep, h, ne_eq, not_true_eq_false, if_false]
  split
  · split <;> simp
  · simp

lemma apesStep_miss (cfg : LoopCfg) (st : RunState) (n : Nat)
    (h : cfg.download n ≠ 200) :
    (apesStep cfg st n).1.consecutiveMissing = st.consecutiveMissing + 1
    ∧ (apesStep cfg st n).1.foundCount = st.foundCount
    ∧ (apesStep cfg st n).1.entered = st.entered ++ [n]
    ∧ (cfg.maxMissing ≤ st.consecutiveMissing + 1 →
        (apesStep cfg st n).2 = false ∧ (apesStep cfg st n).1.stoppedAt = some n)
    ∧ (¬ cfg.maxMissing ≤ st.consecutiveMissing + 1 →
        (apesStep cfg st n).2 = true ∧ (apesStep cfg st n).1.stoppedAt = st.stoppedAt) := by
  simp only [apesStep, h, ne_eq, not_false_eq_true, if_true]
  split <;> rename_i hM <;> simp_all

lemma runFrom_cons_continue (step : RunState → Nat → RunState × Bool)
    (st : RunState) (n : Nat) (rest : List Nat) (h : (step st n).2 = true) :
    runFrom step (n :: rest) st = runFrom step rest (step st n).1 := by
  simp only [runFrom, h, if_true]

lemma runFrom_cons_stop (step : RunState → Nat → RunState × Bool)
    (st : RunState) (n : Nat) (rest : List Nat) (h : (step st n).2 = false) :
    runFrom step (n :: rest) st = (step st n).1 := by
  simp only [runFrom, h, Bool.false_eq_true, if_false]

lemma runFrom_apes_hits (cfg : LoopCfg) :
    ∀ (l : List Nat), (∀ m ∈ l, cfg.download m = 200) → ∀ (st : RunState),
    (∀ l2, runFrom (apesStep cfg) (l ++ l2) st
        = runFrom (apesStep cfg) l2 (runFrom (apesStep cfg) l st))
    ∧ (runFrom (apesStep cfg) l st).stoppedAt = st.stoppedAt
    ∧ (runFrom (apesStep cfg) l st).foundCount = st.foundCount + l.length
    ∧ (runFrom (apesStep cfg) l st).entered = st.entered ++ l
    ∧ (runFrom (apesStep cfg) l st).consecutiveMissing
        = (if l.isEmpty then st.consecutiveMissing else 0) := by
  intro l
  induction l with
  | nil => intro _ st; simp [runFrom]
  | cons n rest ih =>
    intro hdl st
    have hn : cfg.download n = 200 := hdl n (by simp)
    have hstep := apesStep_hit cfg st n hn
    have hrest : ∀ m ∈ rest, cfg.download m = 200 := fun m hm => hdl m (by simp [hm])
    have ihr := ih hrest (apesStep cfg st n).1
    have hcons := runFrom_cons_continue (apesStep cfg) st n rest hstep.1
    refine ⟨?_, ?_, ?_, ?_, ?_⟩
    · intro l2
      rw [List.cons_append,
        runFrom_cons_continue (apesStep cfg) st n (rest ++ l2) hstep.1,
        ihr.1 l2, hcons]
    · rw [hcons, ihr.2.1, hstep.2.2.2.2]
    · rw [hcons, ihr.2.2.1, hstep.2.2.1]
      simp [Nat.add_assoc, Nat.add_comm 1]
    · rw [hcons, ihr.2.2.2.1, hstep.2.2.2.1]
      simp
    · rw [hcons, ihr.2.2.2.2]
      rcases rest with _ | ⟨m, rest'⟩
      · simp [runFrom, hstep.2.1]
      · simp

lemma runFrom_apes_miss_stop (cfg : LoopCfg) :
    ∀ (len k : Nat) (st : RunState),
    (∀ m, k ≤ m → m < k + len → cfg.download m ≠ 200) →
    st.consecutiveMissing < cfg.maxMissing →
    cfg.maxMissing ≤ st.consecutiveMissing + len →
    (runFrom (apesStep cfg) (List.range' k len) st).stoppedAt
        = some (k + (cfg.maxMissing - st.consecutiveMissing - 1))
    ∧ (runFrom (apesStep cfg) (List.range' k len) st).entered
        = st.entered ++ List.range' k (cfg.maxMissing - st.consecutiveMissing)
    ∧ (runFrom (apesStep cfg) (List.range' k len) st).foundCount = st.foundCount := by
  intro len
  induction len with
  | zero => intro k st _ hlt hle; omega
  | succ len ih =>
    intro k st hmiss hlt hle
    have hk : cfg.download k ≠ 200 := hmiss k (by omega) (by omega)
    have hstep := apesStep_miss cfg st k hk
    have hrange : List.range' k (len + 1) = k :: List.range' (k + 1) len := by
      simp [List.range']
    rw [hrange]
    by_cases hM : cfg.maxMissing ≤ st.consecutiveMissing + 1
    · have hMeq : cfg.maxMissing - st.consecutiveMissing = 1 := by omega
      have hstop := hstep.2.2.2.1 hM
      rw [runFrom_cons_stop (apesStep cfg) st k (List.range' (k + 1) len) hstop.1]
      refine ⟨?_, ?_, hstep.2.1⟩
      · rw [hstop.2]
        congr 1
        omega
      · rw [hstep.2.2.1, hMeq]
        simp [List.range']
    · have hgo := hstep.2.2.2.2 hM
      rw [runFrom_cons_continue (apesStep cfg) st k (List.range' (k + 1) len) hgo.1]
      have ihr := ih (k + 1) (apesStep cfg st k).1
        (fun m h1 h2 => hmiss m (by omega) (by omega))
        (by rw [hstep.1]; omega) (by rw [hstep.1]; omega)
      refine ⟨?_, ?_, ?_⟩
      · rw [ihr.1, hstep.1]
        congr 1
        omega
      · rw [ihr.2.1, hstep.1, hstep.2.2.1]
        have hsplit : List.range' k (cfg.maxMissing - st.consecutiveMissing)
            = k :: List.range' (k + 1) (cfg.maxMissing - (st.consecutiveMissing + 1)) := by
          have h1 : cfg.maxMissing - st.consecutiveMissing
              = (cfg.maxMissing - (st.consecutiveMissing + 1)) + 1 := by omega
          rw [h1]
          simp [List.range']
        rw [hsplit]
        simp
      · rw [ihr.2.2, hstep.2.1]

/-- C1: in the sequential IPFS loop a miss increments the
consecutive-miss counter and a hit resets it to zero; when every id
`≥ k` misses and every id below `k` hits (scanning `start ≤ k`,
threshold at least 1 and `max_missing < end - k`), the run halts at
id `k + max_missing - 1` without visiting later ids, and the final
summary reports `found = k - start`.  Instantiated at
`start = 1, end = 10000, k = 501, max_missing = 75` this gives the stop
message at id `575` and `found = 500` (see the witness). -/
theorem consecutive_miss_stop_C1 (cfg : LoopCfg) (startNumber endNumber k : Nat)
    (hk : startNumber ≤ k) (hM1 : 1 ≤ cfg.maxMissing)
    (hMe : cfg.maxMissing < endNumber - k)
    (hdl : ∀ n, cfg.download n = 200 ↔ n < k) :
    (∀ st n, cfg.download n ≠ 200 →
        (apesStep cfg st n).1.consecutiveMissing = st.consecutiveMissing + 1)
    ∧ (∀ st n, cfg.download n = 200 →
        (apesStep cfg st n).1.consecutiveMissing = 0)
    ∧ (apesRun cfg startNumber endNumber).stoppedAt
        = some (k + cfg.maxMissing - 1)
    ∧ (apesRun cfg startNumber endNumber).foundCount = k - startNumber
    ∧ (apesRun cfg startNumber endNumber).entered
        = pyRange startNumber (k + cfg.maxMissing) := by
  refine ⟨fun st n h => (apesStep_miss cfg st n h).1,
          fun st n h => (apesStep_hit cfg st n h).2.1, ?_⟩
  have hsplit : pyRange startNumber (endNumber + 1)
      = List.range' startNumber (k - startNumber) ++ List.range' k (endNumber + 1 - k) := by
    have h := List.range'_append startNumber (k - startNumber) (endNumber + 1 - k) 1
    rw [one_mul, show startNumber + (k - startNumber) = k by omega] at h
    rw [pyRange,
      show endNumber + 1 - startNumber = (endNumber + 1 - k) + (k - startNumber) by omega]
    exact h.symm
  have hhits := runFrom_apes_hits cfg (List.range' startNumber (k - startNumber))
    (fun m hm => by
      rw [hdl m]
      have := List.mem_range'_1.mp hm
      omega)
    RunState.init
  set st1 := runFrom (apesStep cfg) (List.range' startNumber (k - startNumber))
    RunState.init with hst1
  have hc1 : st1.consecutiveMissing = 0 := by
    rw [hhits.2.2.2.2]
    split <;> simp [RunState.init]
  have hmiss := runFrom_apes_miss_stop cfg (endNumber + 1 - k) k st1
    (fun m h1 h2 => by rw [Ne, hdl m]; omega)
    (by rw [hc1]; omega) (by rw [hc1]; omega)
  rw [hc1] at hmiss
  simp only [Nat.sub_zero] at hmiss
  have hrun : apesRun cfg startNumber endNumber
      = runFrom (apesStep cfg) (List.range' k (endNumber + 1 - k)) st1 := by
    rw [apesRun, hsplit, hhits.1]
  refine ⟨?_, ?_, ?_⟩
  · rw [hrun, hmiss.1]
    congr 1
    omega
  · rw [hrun, hmiss.2.2, hhits.2.2.1]
    simp [RunState.init]
  · rw [hrun, hmiss.2.1, hhits.2.2.2.1]
    simp only [RunState.init, List.nil_append]
    have h2 := List.range'_append startNumber (k - startNumber) cfg.maxMissing 1
    rw [one_mul, show startNumber + (k - startNumber) = k by omega] at h2
    rw [h2, pyRange]
    congr 1
    omega

/-- C1 witness: the claim's concrete scenario (ids `1..500` present,
`501..10000` absent, `max_missing = 75`). -/
theorem consecutive_miss_stop_C1_witness :
    (apesRun apesScanCfg 1 10000).stoppedAt = some 575
    ∧ (apesRun apesScanCfg 1 10000).foundCount = 500
    ∧ (apesRun apesScanCfg 1 10000).entered = pyRange 1 576 := by
  have h := consecutive_miss_stop_C1 apesScanCfg 1 10000 501
    (by norm_num) (by norm_num [apesScanCfg]) (by norm_num [apesScanCfg])
    (fun n => by by_cases hn : n < 501 <;> simp [apesScanCfg, hn])
  refine ⟨?_, ?_, ?_⟩
  · rw [h.2.2.1]
    norm_num [apesScanCfg]
  · exact h.2.2.2.1
  · rw [h.2.2.2.2]
    norm_num [apesScanCfg]

/-! ## Helper lemmas: the hogs loops -/

lemma hogsStep_skip (cfg : LoopCfg) (st : RunState) (n : Nat)
    (h : cfg.existing n = true) :
    hogsStep cfg st n = ({ st with
      entered := st.entered ++ [n],
      skippedCount := st.skippedCount + 1,
      skippedIds := st.skippedIds ++ [n] }, true) := by
  simp [hogsStep, h]

lemma hogsStep_hit (cfg : LoopCfg) (st : RunState) (n : Nat)
    (hex : cfg.existing n = false) (h : cfg.download n = 200) :
    (hogsStep cfg st n).2 = true
    ∧ (hogsStep cfg st n).1.consecutiveMissing = 0
    ∧ ((cfg.upload n = 200 ∨ cfg.upload n = 201) → cfg.deleteLocal = true →
        n ∉ (hogsStep cfg st n).1.localFiles)
    ∧ (¬ (cfg.upload n = 200 ∨ cfg.upload n = 201) →
        n ∈ (hogsStep cfg st n).1.localFiles) := by
  simp only [hogsStep, hex, Bool.false_eq_true, if_false, h, ne_eq,
    not_true_eq_false]
  refine ⟨?_, ?_, ?_, ?_⟩
  · split
    · split <;> simp
    · simp
  · split
    · split <;> simp
    · simp
  · intro hup hdel
    rw [if_pos hup, if_pos hdel]
    simp [List.mem_filter]
  · intro hup
    rw [if_neg hup]
    simp [List.mem_insert_self]

lemma hogsStep_miss (cfg : LoopCfg) (st : RunState) (n : Nat)
    (hex : cfg.existing n = false) (h : cfg.download n ≠ 200) :
    (hogsStep cfg st n).1.consecutiveMissing = st.consecutiveMissing + 1
    ∧ (cfg.maxMissing ≤ st.consecutiveMissing + 1 →
        (hogsStep cfg st n).2 = false ∧ (hogsStep cfg st n).1.stoppedAt = some n)
    ∧ (¬ cfg.maxMissing ≤ st.consecutiveMissing + 1 →
        (hogsStep cfg st n).2 = true) := by
  simp only [hogsStep, hex, Bool.false_eq_true, if_false, h, ne_eq,
    not_false_eq_true, if_true]
  split <;> rename_i hM <;> simp_all

lemma runFrom_mem_trace (step : RunState → Nat → RunState × Bool)
    (f : RunState → List Nat) (P : Nat → Prop)
    (hstep : ∀ st n, f (step st n).1 = f st ∨ (f (step st n).1 = f st ++ [n] ∧ P n)) :
    ∀ (l : List Nat) (st : RunState) (x : Nat),
    x ∈ f (runFrom step l st) → x ∈ f st ∨ (x ∈ l ∧ P x) := by
  intro l
  induction l with
  | nil => intro st x hx; exact Or.inl hx
  | cons n rest ih =>
    intro st x hx
    have hone : x ∈ f (step st n).1 → x ∈ f st ∨ (x ∈ n :: rest ∧ P x) := by
      intro hm
      rcases hstep st n with h | ⟨h, hp⟩
      · rw [h] at hm
        exact Or.inl hm
      · rw [h] at hm
        rcases List.mem_append.mp hm with h1 | h1
        · exact Or.inl h1
        · simp only [List.mem_singleton] at h1
          subst h1
          exact Or.inr ⟨by simp, hp⟩
    by_cases hc : (step st n).2 = true
    · rw [runFrom_cons_continue step st n rest hc] at hx
      rcases ih (step st n).1 x hx with h1 | ⟨h1, hp⟩
      · exact hone h1
      · exact Or.inr ⟨by simp [h1], hp⟩
    · rw [runFrom_cons_stop step st n rest (by simpa using hc)] at hx
      exact hone hx

lemma hogsStep_downloads_trace (cfg : LoopCfg) (st : RunState) (n : Nat) :
    (hogsStep cfg st n).1.downloads = st.downloads
    ∨ ((hogsStep cfg st n).1.downloads = st.downloads ++ [n]
        ∧ cfg.existing n = false) := by
  simp only [hogsStep]
  split
  · exact Or.inl rfl
  · rename_i hex
    split
    · split
      · exact Or.inr ⟨rfl, by simpa using hex⟩
      · exact Or.inr ⟨rfl, by simpa using hex⟩
    · split
      · split
        · exact Or.inr ⟨rfl, by simpa using hex⟩
        · exact Or.inr ⟨rfl, by simpa using hex⟩
      · exact Or.inr ⟨rfl, by simpa using hex⟩

lemma hogsStep_uploads_trace (cfg : LoopCfg) (st : RunState) (n : Nat) :
    (hogsStep cfg st n).1.uploads = st.uploads
    ∨ ((hogsStep cfg st n).1.uploads = st.uploads ++ [n]
        ∧ cfg.existing n = false) := by
  simp only [hogsStep]
  split
  · exact Or.inl rfl
  · rename_i hex
    split
    · split
      · exact Or.inl rfl
      · exact Or.inl rfl
    · split
      · split
        · exact Or.inr ⟨rfl, by simpa using hex⟩
        · exact Or.inr ⟨rfl, by simpa using hex⟩
      · exact Or.inr ⟨rfl, by simpa using hex⟩

lemma hogsStep_uploadedIds_trace (cfg : LoopCfg) (st : RunState) (n : Nat) :
    (hogsStep cfg st n).1.uploadedIds = st.uploadedIds
    ∨ ((hogsStep cfg st n).1.uploadedIds = st.uploadedIds ++ [n] ∧ True) := by
  simp only [hogsStep]
  split
  · exact Or.inl rfl
  · split
    · split
      · exact Or.inl rfl
      · exact Or.inl rfl
    · split
      · split
        · exact Or.inr ⟨rfl, trivial⟩
        · exact Or.inr ⟨rfl, trivial⟩
      · exact Or.inl rfl

lemma runFrom_hogs_skipMiss_stop (cfg : LoopCfg) :
    ∀ (l : List Nat) (st : RunState),
    (∀ m ∈ l, cfg.existing m = true ∨ cfg.download m ≠ 200) →
    st.consecutiveMissing < cfg.maxMissing →
    cfg.maxMissing ≤ st.consecutiveMissing + l.countP (fun m => !cfg.existing m) →
    ((runFrom (hogsStep cfg) l st).stoppedAt).isSome = true := by
  intro l
  induction l with
  | nil =>
    intro st _ hlt hle
    simp only [List.countP_nil] at hle
    omega
  | cons n rest ih =>
    intro st hml hlt hle
    by_cases hex : cfg.existing n = true
    · have hskip := hogsStep_skip cfg st n hex
      rw [runFrom_cons_continue (hogsStep cfg) st n rest (by rw [hskip])]
      refine ih (hogsStep cfg st n).1 (fun m hm => hml m (by simp [hm])) ?_ ?_
      · rw [hskip]
        exact hlt
      · rw [hskip]
        simp only [List.countP_cons, hex, Bool.not_true] at hle ⊢
        simpa using hle
    · have hexf : cfg.existing n = false := by simpa using hex
      have hdl : cfg.download n ≠ 200 := by
        rcases hml n (by simp) with h | h
        · rw [hexf] at h
          cases h
        · exact h
      have hstep := hogsStep_miss cfg st n hexf hdl
      by_cases hM : cfg.maxMissing ≤ st.consecutiveMissing + 1
      · rw [runFrom_cons_stop (hogsStep cfg) st n rest (hstep.2.1 hM).1,
          (hstep.2.1 hM).2]
        rfl
      · rw [runFrom_cons_continue (hogsStep cfg) st n rest (hstep.2.2 hM)]
        refine ih (hogsStep cfg st n).1 (fun m hm => hml m (by simp [hm])) ?_ ?_
        · rw [hstep.1]
          omega
        · rw [hstep.1]
          simp [List.countP_cons, hexf] at hle ⊢
          omega

/-- C10: an item skipped because it already exists on the CDN leaves the
consecutive-miss counter unchanged (neither incremented nor reset) and
the loop continues without downloading it; a miss increments the
counter; a successful download resets it to zero whatever the upload
status, so an upload failure after a successful download counts as a
hit; and a streak of misses separated only by skipped items still
reaches the threshold and triggers the early stop. -/
theorem skip_keeps_streak_C10 (cfg : LoopCfg) :
    (∀ st n, cfg.existing n = true →
        (hogsStep cfg st n).1.consecutiveMissing = st.consecutiveMissing
        ∧ (hogsStep cfg st n).2 = true
        ∧ (hogsStep cfg st n).1.downloads = st.downloads)
    ∧ (∀ st n, cfg.existing n = false → cfg.download n ≠ 200 →
        (hogsStep cfg st n).1.consecutiveMissing = st.consecutiveMissing + 1)
    ∧ (∀ st n, cfg.existing n = false → cfg.download n = 200 →
        (hogsStep cfg st n).1.consecutiveMissing = 0
        ∧ (hogsStep cfg st n).2 = true)
    ∧ (∀ (l : List Nat) (st : RunState),
        (∀ m ∈ l, cfg.existing m = true ∨ cfg.download m ≠ 200) →
        st.consecutiveMissing < cfg.maxMissing →
        cfg.maxMissing ≤ st.consecutiveMissing
            + l.countP (fun m => !cfg.existing m) →
        ((runFrom (hogsStep cfg) l st).stoppedAt).isSome = true) := by
  refine ⟨?_, ?_, ?_, runFrom_hogs_skipMiss_stop cfg⟩
  · intro st n h
    rw [hogsStep_skip cfg st n h]
    exact ⟨rfl, rfl, rfl⟩
  · intro st n hex h
    exact (hogsStep_miss cfg st n hex h).1
  · intro st n hex h
    exact ⟨(hogsStep_hit cfg st n hex h).2.1, (hogsStep_hit cfg st n hex h).1⟩

/-- C10 witness: with id 2 already on the CDN, ids 1 and 3 missing and
threshold 2, the skip-separated misses trigger the stop; the skip of
id 2 leaves the counter unchanged. -/
theorem skip_keeps_streak_C10_witness :
    ((runFrom (hogsStep skipStreakCfg) [1, 2, 3] RunState.init).stoppedAt).isSome = true
    ∧ (hogsStep skipStreakCfg RunState.init 2).1.consecutiveMissing
        = RunState.init.consecutiveMissing := by
  constructor
  · exact (skip_keeps_streak_C10 skipStreakCfg).2.2.2 [1, 2, 3] RunState.init
      (fun m _ => Or.inr (by simp [skipStreakCfg]))
      (by decide)
      (by decide)
  · exact ((skip_keeps_streak_C10 skipStreakCfg).1 RunState.init 2 (by decide)).1

/-- C7: with local deletion enabled, the temp directory is removed
exactly when the upload-error count is zero, so the fetched local
copies are retained iff at least one upload failed; per item, a
successful upload deletes the local file immediately while a failed
upload keeps it (and bumps the error count). -/
theorem temp_retention_C7 (cfg : LoopCfg) (hdel : cfg.deleteLocal = true) :
    (∀ st, tempDirRemoved cfg st = true ↔ st.errorsUpload = 0)
    ∧ (∀ st, st.errorsUpload = 0 → finalLocalFiles cfg st = [])
    ∧ (∀ st, 1 ≤ st.errorsUpload → finalLocalFiles cfg st = st.localFiles)
    ∧ (∀ st n, cfg.existing n = false → cfg.download n = 200 →
        ((cfg.upload n = 200 ∨ cfg.upload n = 201) →
            n ∉ (hogsStep cfg st n).1.localFiles)
        ∧ (¬ (cfg.upload n = 200 ∨ cfg.upload n = 201) →
            n ∈ (hogsStep cfg st n).1.localFiles
            ∧ (hogsStep cfg st n).1.errorsUpload = st.errorsUpload + 1)) := by
  refine ⟨?_, ?_, ?_, ?_⟩
  · intro st
    simp [tempDirRemoved, hdel]
  · intro st h
    simp [finalLocalFiles, tempDirRemoved, hdel, h]
  · intro st h
    have h0 : ¬ st.errorsUpload = 0 := by omega
    simp [finalLocalFiles, tempDirRemoved, hdel, h0]
  · intro st n hex hok
    refine ⟨fun hup => (hogsStep_hit cfg st n hex hok).2.2.1 hup hdel, fun hup => ?_⟩
    refine ⟨(hogsStep_hit cfg st n hex hok).2.2.2 hup, ?_⟩
    simp only [hogsStep, hex, Bool.false_eq_true, if_false, hok, ne_eq,
      not_true_eq_false]
    rw [if_neg hup]

/-- C7 witness: in the forced-failure scenario the failed item 5 keeps
its local copy, the successful item 6 has its copy deleted immediately,
and a zero-error state has its temp directory removed. -/
theorem temp_retention_C7_witness :
    (5 : Nat) ∈ (hogsStep uploadFailCfg RunState.init 5).1.localFiles
    ∧ (6 : Nat) ∉ (hogsStep uploadFailCfg RunState.init 6).1.localFiles
    ∧ tempDirRemoved uploadFailCfg RunState.init = true := by
  have h := temp_retention_C7 uploadFailCfg rfl
  exact ⟨((h.2.2.2 RunState.init 5 rfl rfl).2 (by decide)).1,
         (h.2.2.2 RunState.init 6 rfl rfl).1 (by decide),
         (h.1 RunState.init).mpr rfl⟩

lemma mem_get_existing_files (head : String → Option Nat) (destPath : String)
    (s e n : Nat) :
    n ∈ get_existing_files_on_cdn head destPath s e
    ↔ s ≤ n ∧ n ≤ e
      ∧ check_file_exists_on_cdn head (destKey destPath n "json") = true := by
  simp only [get_existing_files_on_cdn, rangeStep, pyRange, List.mem_flatMap,
    List.mem_map, List.mem_range, List.mem_filter, List.mem_range'_1]
  constructor
  · rintro ⟨bs, ⟨i, hi, rfl⟩, ⟨h1, h2⟩, hc⟩
    exact ⟨by omega, by omega, hc⟩
  · rintro ⟨h1, h2, hc⟩
    exact ⟨s + 100 * ((n - s) / 100), ⟨(n - s) / 100, by omega, rfl⟩,
      ⟨by omega, by omega⟩, hc⟩

/-- C2 (amended): running the batch twice against the same destination
with the existence check enabled performs zero re-uploads on the second
run for every item uploaded successfully on the first run: each such id
is found by `get_existing_files_on_cdn`, and the second run never calls
download or PUT for it (it is either skipped, or lies beyond the second
run's early stop). -/
theorem second_run_no_reupload_C2 (cfg1 cfg2 : LoopCfg)
    (head : String → Option Nat) (destPath : String) (s e : Nat)
    (hHead : ∀ n ∈ (hogsRun cfg1 s e).uploadedIds,
        head (destKey destPath n "json") = some 200)
    (hEx : ∀ n, cfg2.existing n
        = decide (n ∈ get_existing_files_on_cdn head destPath s e)) :
    ∀ n ∈ (hogsRun cfg1 s e).uploadedIds,
      n ∈ get_existing_files_on_cdn head destPath s e
      ∧ n ∉ (hogsRun cfg2 s e).downloads
      ∧ n ∉ (hogsRun cfg2 s e).uploads := by
  intro n hn
  have hrange : n ∈ pyRange s (e + 1) := by
    have h := runFrom_mem_trace (hogsStep cfg1) (fun st => st.uploadedIds)
      (fun _ => True) (hogsStep_uploadedIds_trace cfg1)
      (pyRange s (e + 1)) RunState.init n hn
    rcases h with h | ⟨h, _⟩
    · simp [RunState.init] at h
    · exact h
  have hse := List.mem_range'_1.mp (by simpa [pyRange] using hrange)
  have hmem : n ∈ get_existing_files_on_cdn head destPath s e := by
    rw [mem_get_existing_files]
    refine ⟨by omega, by omega, ?_⟩
    simp [check_file_exists_on_cdn, hHead n hn]
  refine ⟨hmem, ?_, ?_⟩
  · intro hdl
    have h := runFrom_mem_trace (hogsStep cfg2) (fun st => st.downloads)
      (fun m => cfg2.existing m = false) (hogsStep_downloads_trace cfg2)
      (pyRange s (e + 1)) RunState.init n hdl
    rcases h with h | ⟨_, hfalse⟩
    · simp [RunState.init] at h
    · rw [hEx n] at hfalse
      simp [hmem] at hfalse
  · intro hup
    have h := runFrom_mem_trace (hogsStep cfg2) (fun st => st.uploads)
      (fun m => cfg2.existing m = false) (hogsStep_uploads_trace cfg2)
      (pyRange s (e + 1)) RunState.init n hup
    rcases h with h | ⟨_, hfalse⟩
    · simp [RunState.init] at h
    · rw [hEx n] at hfalse
      simp [hmem] at hfalse

/-- C2 counterexample: over ids `1..6` with the even ids on the gateway,
`max_missing = 2` and both uploads of the first run succeeding, id 4 was
uploaded successfully by the first run and is found by
`get_existing_files_on_cdn`, yet the second run's main loop never takes
the skip branch for id 4: the skip of id 2 leaves the miss streak of
ids 1 and 3 consecutive, so the second run stops at id 3 before ever
reaching id 4.  (It still performs no download or PUT for id 4.) -/
theorem second_run_skip_counterexample_C2 :
    4 ∈ (hogsRun twoRunCfg1 1 6).uploadedIds
    ∧ 4 ∈ get_existing_files_on_cdn twoRunHead2 "hog_jsons/" 1 6
    ∧ 4 ∉ (hogsRun twoRunCfg2 1 6).skippedIds
    ∧ (hogsRun twoRunCfg2 1 6).stoppedAt = some 3 := by
  decide

/-- C2 witness: the amended statement instantiated on the two-run
scenario at id 4. -/
theorem second_run_no_reupload_C2_witness :
    4 ∈ get_existing_files_on_cdn twoRunHead2 "hog_jsons/" 1 6
    ∧ 4 ∉ (hogsRun twoRunCfg2 1 6).downloads
    ∧ 4 ∉ (hogsRun twoRunCfg2 1 6).uploads := by
  refine second_run_no_reupload_C2 twoRunCfg1 twoRunCfg2 twoRunHead2
    "hog_jsons/" 1 6 ?_ (fun n => rfl) 4 (by decide)
  intro n hn
  have h246 : (hogsRun twoRunCfg1 1 6).uploadedIds = [2, 4, 6] := by decide
  rw [h246] at hn
  simp only [List.mem_cons, List.not_mem_nil, or_false] at hn
  rcases hn with rfl | rfl | rfl
  · decide
  · decide
  · decide

lemma csvCollect_split : ∀ (l : List (Bool × String)) (a b : Nat),
    (l.foldl (fun acc r => if r.1 then (acc.1 + 1, acc.2)
        else (acc.1, acc.2 + 1)) (a, b)).1
    + (l.foldl (fun acc r => if r.1 then (acc.1 + 1, acc.2)
        else (acc.1, acc.2 + 1)) (a, b)).2
    = a + b + l.length := by
  intro l
  induction l with
  | nil => intro a b; simp
  | cons r rest ih =>
    intro a b
    cases hr : r.1 <;>
      simp only [List.foldl_cons, hr, Bool.false_eq_true, if_false, if_true] <;>
      rw [ih] <;> simp <;> omega

/-- C4: an upload failure never halts the run: whenever the download of
item `n` succeeded and its PUT returned a non-2xx status, the loop
records one more upload error and continues with the next candidate
(no stop message); in the forced-failure run over items `5..10` (item 5
gets a 500 PUT response, items `6..10` get 200) the final summary
reports exactly one upload error and five uploads, with no early stop
and all six candidates visited.  The CSV variant's collection loop
likewise consumes every completed row whatever its outcome. -/
theorem upload_failure_continues_C4 :
    (∀ (cfg : LoopCfg) (st : RunState) (n : Nat), cfg.download n = 200 →
        ¬ (cfg.upload n = 200 ∨ cfg.upload n = 201) →
        (apesStep cfg st n).2 = true
        ∧ (apesStep cfg st n).1.errorsUpload = st.errorsUpload + 1
        ∧ (apesStep cfg st n).1.stoppedAt = st.stoppedAt)
    ∧ ((apesRun uploadFailCfg 5 10).errorsUpload = 1
        ∧ (apesRun uploadFailCfg 5 10).uploadedCount = 5
        ∧ (apesRun uploadFailCfg 5 10).stoppedAt = none
        ∧ (apesRun uploadFailCfg 5 10).entered = [5, 6, 7, 8, 9, 10])
    ∧ (∀ results : List (Bool × String),
        (csvCollect results).1 + (csvCollect results).2 = results.length) := by
    refine ⟨?_, by decide, ?_⟩
    · intro cfg st n h hup
      simp only [apesStep, h, ne_eq, not_true_eq_false, if_false]
      rw [if_neg hup]
      exact ⟨rfl, rfl, rfl⟩
    · intro results
      simpa using csvCollect_split results 0 0

/-- C4 witness: the step-level continuation fact applied at the forced
failure of item 5. -/
theorem upload_failure_continues_C4_witness :
    (apesStep uploadFailCfg RunState.init 5).2 = true
    ∧ (apesStep uploadFailCfg RunState.init 5).1.errorsUpload = 1
    ∧ (apesStep uploadFailCfg RunState.init 5).1.stoppedAt = none := by
  exact upload_failure_continues_C4.1 uploadFailCfg RunState.init 5 rfl (by decide)

/-- C8: the existence check is best-effort and never fatal: for every
destination key, a raised HEAD request (`head k = none`) makes
`check_file_exists_on_cdn` return `False` (treated as not present, safe
to re-upload), and a key is reported present exactly when the HEAD
response status is 200. -/
theorem existence_check_besteffort_C8 (head : String → Option Nat) (k : String) :
    (head k = none → check_file_exists_on_cdn head k = false)
    ∧ (check_file_exists_on_cdn head k = true ↔ head k = some 200) := by
  constructor
  · intro h
    simp [check_file_exists_on_cdn, h]
  · cases hh : head k with
    | none => simp [check_file_exists_on_cdn, hh]
    | some c => simp [check_file_exists_on_cdn, hh]

/-- C8 witness: a raising HEAD yields `False`, a 200 yields `True`, a
404 yields `False`, on a concrete key. -/
theorem existence_check_besteffort_C8_witness :
    check_file_exists_on_cdn (fun _ => none) "hog_jsons/1.json" = false
    ∧ check_file_exists_on_cdn (fun _ => some 200) "hog_jsons/1.json" = true
    ∧ check_file_exists_on_cdn (fun _ => some 404) "hog_jsons/1.json" = false := by
  refine ⟨(existence_check_besteffort_C8 (fun _ => none) "hog_jsons/1.json").1 rfl,
    (existence_check_besteffort_C8 (fun _ => some 200) "hog_jsons/1.json").2.mpr rfl,
    ?_⟩
  have h := (existence_check_besteffort_C8 (fun _ => some 404) "hog_jsons/1.json").2
  cases hc : check_file_exists_on_cdn (fun _ => some 404) "hog_jsons/1.json"
  · rfl
  · cases h.mp hc

/-- C9: the image-asset existence check always targets the hard-coded
public host: for any two configurations of storage zone, access key and
region host, the HEAD request (URL, headers, timeout) is identical —
`https://baysed.b-cdn.net/` followed by the key, no headers — and the
check's result is the same for the same HEAD oracle; the storage API
host used for uploads never influences it. -/
theorem hardcoded_check_host_C9 (head : HeadRequest → Option Nat)
    (z1 k1 z2 k2 : String) (h1 h2 : Option String) (dk : String) :
    check_file_exists_request_png z1 k1 h1 dk = check_file_exists_request_png z2 k2 h2 dk
    ∧ (check_file_exists_request_png z1 k1 h1 dk).url
        = "https://baysed.b-cdn.net/" ++ dk
    ∧ (check_file_exists_request_png z1 k1 h1 dk).headers = []
    ∧ check_file_exists_on_cdn_png head z1 k1 h1 dk
        = check_file_exists_on_cdn_png head z2 k2 h2 dk :=
  ⟨rfl, rfl, rfl, rfl⟩

/-! ## Helper lemmas: download_png -/

lemma tryGateways_all_none (respA : Nat → GatewayResp) :
    ∀ gs, (∀ g ∈ gs, isTerminalResp (respA g) = none) →
    tryGateways respA gs = (none, gs) := by
  intro gs
  induction gs with
  | nil => intro _; rfl
  | cons g rest ih =>
    intro h
    have hg := h g (by simp)
    simp only [tryGateways, hg]
    rw [ih (fun x hx => h x (by simp [hx]))]

lemma tryGateways_notFound (respA : Nat → GatewayResp) :
    ∀ (pre : List Nat) (g : Nat) (post : List Nat),
    (∀ x ∈ pre, isTerminalResp (respA x) = none) → respA g = .notFound →
    tryGateways respA (pre ++ g :: post) = (some (false, 404), pre ++ [g]) := by
  intro pre
  induction pre with
  | nil =>
    intro g post _ hg
    simp only [List.nil_append, tryGateways, hg, isTerminalResp]
  | cons x rest ih =>
    intro g post h hg
    have hx := h x (by simp)
    simp only [List.cons_append, tryGateways, hx, List.append_eq]
    rw [ih g post (fun y hy => h y (by simp [hy])) hg]

lemma downloadPngGo_all_none (resp : Nat → Nat → GatewayResp) (gIdx : List Nat)
    (maxRetries retryDelay : Nat) :
    ∀ l, (∀ a ∈ l, ∀ g ∈ gIdx, isTerminalResp (resp a g) = none) →
    downloadPngGo resp gIdx maxRetries retryDelay l
      = ((false, 504),
         l.flatMap (fun a => gIdx.map (fun g => (a, g))),
         (l.filter (fun a => decide (a < maxRetries - 1))).map
           (fun a => retryDelay * 2 ^ a)) := by
  intro l
  induction l with
  | nil => intro _; rfl
  | cons a rest ih =>
    intro h
    have ha := tryGateways_all_none (resp a) gIdx (h a (by simp))
    simp only [downloadPngGo, ha]
    rw [ih (fun x hx g hg => h x (by simp [hx]) g hg)]
    by_cases haM : a < maxRetries - 1
    · simp [List.flatMap_cons, List.filter_cons, haM]
    · simp [List.flatMap_cons, List.filter_cons, haM]

lemma range_filter_lt (M : Nat) :
    (List.range M).filter (fun a => decide (a < M - 1)) = List.range (M - 1) := by
  cases M with
  | zero => rfl
  | succ K =>
    rw [List.range_succ, List.filter_append, Nat.succ_sub_one]
    rw [List.filter_eq_self.mpr (fun a ha => by
      simpa using List.mem_range.mp ha)]
    simp

/-- C5: in `download_png` a 404 from any gateway is authoritative: the
function immediately returns a miss with status 404, probing no further
gateway and making no further attempt and no back-off sleep; timeouts,
connection errors, request errors and non-200/404 statuses are
non-terminal and fall through, and when every probe is transient the
function exhausts `max_retries` attempts across all gateways, sleeping
`retry_delay * 2 ^ attempt` between attempts, and reports the item
missing with status 504. -/
theorem gateway_404_authoritative_C5 (resp : Nat → Nat → GatewayResp)
    (gateways : List String) (maxRetries retryDelay : Nat) :
    (isTerminalResp .ok = some (true, 200)
      ∧ isTerminalResp .notFound = some (false, 404)
      ∧ isTerminalResp .timeout = none
      ∧ isTerminalResp .connError = none
      ∧ isTerminalResp .reqError = none
      ∧ ∀ c, isTerminalResp (.httpStatus c) = none)
    ∧ (∀ pre g post,
        List.range gateways.length = pre ++ g :: post →
        (∀ x ∈ pre, isTerminalResp (resp 0 x) = none) →
        resp 0 g = .notFound →
        1 ≤ maxRetries →
        download_png resp gateways maxRetries retryDelay
          = ((false, 404), (pre ++ [g]).map (fun x => (0, x)), []))
    ∧ ((∀ a g, isTerminalResp (resp a g) = none) →
        download_png resp gateways maxRetries retryDelay
          = ((false, 504),
             (List.range maxRetries).flatMap (fun a =>
               (List.range gateways.length).map (fun g => (a, g))),
             (List.range (maxRetries - 1)).map (fun a => retryDelay * 2 ^ a))) := by
  refine ⟨⟨rfl, rfl, rfl, rfl, rfl, fun c => rfl⟩, ?_, ?_⟩
  · intro pre g post hsplit hpre hg hM
    obtain ⟨K, rfl⟩ : ∃ K, maxRetries = K + 1 := ⟨maxRetries - 1, by omega⟩
    rw [download_png]
    have hrange : List.range (K + 1) = 0 :: List.range' 1 K := by
      rw [List.range_eq_range']
      simp [List.range']
    rw [hrange]
    simp only [downloadPngGo]
    rw [hsplit, tryGateways_notFound (resp 0) pre g post hpre hg]
  · intro hall
    rw [download_png,
      downloadPngGo_all_none resp _ _ _ _ (fun a _ g _ => hall a g),
      range_filter_lt]

/-- C5 witness: with three gateways, a 404 from the second gateway on
the first attempt returns `(False, 404)` after exactly two probes and
no sleep; an all-timeout oracle with `max_retries = 3`,
`retry_delay = 5` probes all nine attempt-gateway pairs and sleeps
`5` then `10` before reporting status 504. -/
theorem gateway_404_authoritative_C5_witness :
    download_png notFoundResp threeGateways 3 5
      = ((false, 404), [(0, 0), (0, 1)], [])
    ∧ download_png transientResp threeGateways 3 5
      = ((false, 504),
         [(0, 0), (0, 1), (0, 2), (1, 0), (1, 1), (1, 2), (2, 0), (2, 1), (2, 2)],
         [5, 10]) := by
  constructor
  · have h := (gateway_404_authoritative_C5 notFoundResp threeGateways 3 5).2.1
      [0] 1 [2] (by decide) (by decide) (by decide) (by decide)
    rw [h]
    decide
  · have h := (gateway_404_authoritative_C5 transientResp threeGateways 3 5).2.2
      (fun a g => rfl)
    rw [h]
    decide

/-! ## Decimal rendering: correctness of `Nat.repr` -/

lemma toDigitsCore_fuel_irrel :
    ∀ (fuel fuel' n : Nat) (ds : List Char), n < fuel → n < fuel' →
    Nat.toDigitsCore 10 fuel n ds = Nat.toDigitsCore 10 fuel' n ds := by
  intro fuel
  induction fuel with
  | zero => intro fuel' n ds h; omega
  | succ f ih =>
    intro fuel' n ds h h'
    cases fuel' with
    | zero => omega
    | succ f' =>
      simp only [Nat.toDigitsCore]
      by_cases h10 : n / 10 = 0
      · simp [h10]
      · have hn : 0 < n := by omega
        have hlt : n / 10 < n := Nat.div_lt_self hn (by omega)
        simp only [h10, if_false]
        exact ih f' (n / 10) _ (by omega) (by omega)

lemma toDigitsCore_append :
    ∀ (fuel n : Nat) (ds : List Char),
    Nat.toDigitsCore 10 fuel n ds = Nat.toDigitsCore 10 fuel n [] ++ ds := by
  intro fuel
  induction fuel with
  | zero => intro n ds; simp [Nat.toDigitsCore]
  | succ f ih =>
    intro n ds
    simp only [Nat.toDigitsCore]
    by_cases h10 : n / 10 = 0
    · simp [h10]
    · simp only [h10, if_false]
      rw [ih (n / 10) [Nat.digitChar (n % 10)],
        ih (n / 10) (Nat.digitChar (n % 10) :: ds)]
      simp

lemma toDigits_unfold (n : Nat) :
    Nat.toDigits 10 n
      = if n < 10 then [Nat.digitChar n]
        else Nat.toDigits 10 (n / 10) ++ [Nat.digitChar (n % 10)] := by
  by_cases h : n < 10
  · rw [if_pos h, Nat.toDigits]
    simp only [Nat.toDigitsCore]
    have h10 : n / 10 = 0 := by omega
    have hmod : n % 10 = n := by omega
    simp [h10, hmod]
  · rw [if_neg h, Nat.toDigits, Nat.toDigits]
    simp only [Nat.toDigitsCore]
    have h10 : ¬ n / 10 = 0 := by omega
    have hlt : n / 10 < n := Nat.div_lt_self (by omega) (by omega)
    simp only [h10, if_false]
    rw [toDigitsCore_append n (n / 10) [Nat.digitChar (n % 10)]]
    congr 1
    exact toDigitsCore_fuel_irrel n (n / 10 + 1) (n / 10) [] (by omega) (by omega)

lemma digitChar_spec :
    ∀ m, m < 10 →
      (Nat.digitChar m).isDigit = true ∧ (Nat.digitChar m).toNat - 48 = m := by
  decide

lemma toDigits_spec (n : Nat) :
    Nat.toDigits 10 n ≠ []
    ∧ (Nat.toDigits 10 n).all Char.isDigit = true
    ∧ ∀ a, (Nat.toDigits 10 n).foldl (fun a c => 10 * a + (c.toNat - 48)) a
        = a * 10 ^ (Nat.toDigits 10 n).length + n := by
  induction n using Nat.strong_induction_on with
  | _ n ih =>
    by_cases h : n < 10
    · rw [toDigits_unfold n, if_pos h]
    
      refine ⟨by simp, by simp [(digitChar_spec n h).1], ?_⟩
      intro a
      simp [List.foldl, (digitChar_spec n h).2]
      omega
    · rw [toDigits_unfold n, if_neg h]
      have hlt : n / 10 < n := Nat.div_lt_self (by omega) (by omega)
      obtain ⟨hne, hdig, hfold⟩ := ih (n / 10) hlt
      have hd := digitChar_spec (n % 10) (by omega)
      refine ⟨by simp, ?_, ?_⟩
      · simp only [List.all_append, hdig, Bool.true_and, List.all_cons,
          List.all_nil, Bool.and_true]
        exact hd.1
      · intro a
        rw [List.foldl_append, hfold a]
        simp only [List.foldl, hd.2, List.length_append, List.length_cons,
          List.length_nil, pow_succ]
        have key : ∀ P q r : Nat,
            10 * (a * P + q) + r = a * (P * 10) + (10 * q + r) := by
          intro P q r
          ring
        rw [key, Nat.div_add_mod]

/-- C3: for every path, id and extension the destination key is the pure
concatenation `path ++ str(n) ++ "." ++ ext` (no padding), parsing the
numeric segment back out of the key recovers the same `n`, and
`hog_jsons/`, `3642`, `json` yield `hog_jsons/3642.json`. -/
theorem destKey_concat_roundtrip_C3 (p e : String) (n : Nat) :
    destKey p n e = p ++ Nat.repr n ++ "." ++ e
    ∧ parseKeyId p e (destKey p n e) = some n
    ∧ destKey "hog_jsons/" 3642 "json" = "hog_jsons/3642.json" := by
  refine ⟨by simp [destKey, itemFilename, String.append_assoc], ?_, by decide⟩
  have hR := toDigits_spec n
  simp only [parseKeyId]
  have hdata : (destKey p n e).data
      = p.data ++ (Nat.toDigits 10 n ++ ("." ++ e).data) := by
    simp only [destKey, itemFilename, String.data_append, List.append_assoc]
    rfl
  rw [hdata]
  have hlen : (p.data ++ (Nat.toDigits 10 n ++ ("." ++ e).data)).length
      - ("." ++ e).data.length
      = p.data.length + (Nat.toDigits 10 n).length := by
    simp [List.length_append]
    omega
  have hc1 : (p.data ++ (Nat.toDigits 10 n ++ ("." ++ e).data)).take p.data.length
      = p.data := List.take_left p.data _
  have hc2 : (p.data ++ (Nat.toDigits 10 n ++ ("." ++ e).data)).drop
      ((p.data ++ (Nat.toDigits 10 n ++ ("." ++ e).data)).length
        - ("." ++ e).data.length)
      = ("." ++ e).data := by
    rw [hlen, ← List.length_append, ← List.append_assoc]
    exact List.drop_left _ _
  rw [if_pos ⟨hc1, hc2⟩, List.drop_left, hlen, Nat.add_sub_cancel_left,
    List.take_left, if_pos ⟨hR.1, hR.2.1⟩, hR.2.2 0]
  simp

/-- C6: for a CSV row whose `Name` contains `#`, the derived destination
id is the text after the last `#` (stripped, parsed as an integer when
`int()` accepts it) — e.g. `"HOG #3642"` gives `3642` and the key
`hog_jsons/3642.json`; for a row whose `Name` has no `#`, the derived id
is the literal string `"unknown"` and the row is still uploaded under
`{path}unknown.json` rather than dropped (exactly one PUT is issued,
whatever its outcome). -/
theorem csv_edition_derivation_C6 :
    (∀ (put : String → Nat) (p name : String), nameHasHash name = false →
        create_metadata_edition name = .str "unknown"
        ∧ (process_nft_row put p name).2 = [p ++ "unknown.json"])
    ∧ (∀ name, nameHasHash name = true →
        create_metadata_edition name
          = (match pyInt? (editionStrOfName name).data with
             | some i => Edition.int i
             | none => Edition.str (editionStrOfName name)))
    ∧ create_metadata_edition "HOG #3642" = .int 3642
    ∧ (∀ put, (process_nft_row put "hog_jsons/" "HOG #3642").2
        = ["hog_jsons/3642.json"]) := by
  refine ⟨?_, ?_, by decide, ?_⟩
  · intro put p name h
    have hed : create_metadata_edition name = .str "unknown" := by
      simp [create_metadata_edition, h]
    refine ⟨hed, ?_⟩
    have hstr : edition_filename_str name = "unknown" := by
      simp only [edition_filename_str, hed]
      simp [h]
    have hkey : p ++ "unknown" ++ ".json" = p ++ "unknown.json" := by
      rw [String.append_assoc]
      have : "unknown" ++ ".json" = "unknown.json" := by decide
      rw [this]
    simp only [process_nft_row, hstr]
    split <;> simp [hkey]
  · intro name h
    simp [create_metadata_edition, h]
  · intro put
    have hstr : edition_filename_str "HOG #3642" = "3642" := by decide
    have hkey : "hog_jsons/" ++ "3642" ++ ".json" = "hog_jsons/3642.json" := by
      decide
    simp only [process_nft_row, hstr]
    split <;> simp [hkey]

/-- C6 witness: a hash-free name (`"HOGX"`) is uploaded as
`hog_jsons/unknown.json`, and the hash case applied at `"HOG #3642"`. -/
theorem csv_edition_derivation_C6_witness :
    create_metadata_edition "HOGX" = .str "unknown"
    ∧ (process_nft_row (fun _ => 200) "hog_jsons/" "HOGX").2
        = ["hog_jsons/unknown.json"]
    ∧ create_metadata_edition "HOG #3642"
        = (match pyInt? (editionStrOfName "HOG #3642").data with
           | some i => Edition.int i
           | none => Edition.str (editionStrOfName "HOG #3642")) := by
  refine ⟨(csv_edition_derivation_C6.1 (fun _ => 200) "hog_jsons/" "HOGX"
            (by decide)).1,
          ?_,
          csv_edition_derivation_C6.2.1 "HOG #3642" (by decide)⟩
  have h := (csv_edition_derivation_C6.1 (fun _ => 200) "hog_jsons/" "HOGX"
    (by decide)).2
  rw [h]
  decide
